import Mathlib

/-!
Shallow embedding of the spectator metrics client core: the MaxGauge meter,
the Publisher's batch encoder (string table, op codes, measurement records),
its batching loop, its sent/error accounting, and its Start/Stop lifecycle.
Machine doubles are modelled as rationals (every finite double is a rational
and the code performs no rounding arithmetic on them, only comparisons,
max, exchanges and additions of integer counts).
-/

namespace Spectator

/-- An identity: a meter name plus its tag set, kept as an association list
(`Id` in the C++ source: `name` + `tags`). -/
structure Id where
  name : String
  tags : List (String × String)
deriving DecidableEq, Repr

/-- Modelled from the spec: `Tags::at` (the `Tags` class is not among the
source files; only its callers are). Looks a key up in the tag set; the spec's
"statistic tag is missing or unrecognized contribute no entry" requires the
missing case to flow into the unrecognized branch, so an absent key yields
the empty string, which no recognized statistic equals. -/
def tagsAt (tags : List (String × String)) (k : String) : String :=
  match tags.find? (fun t => t.1 = k) with
  | some t => t.2
  | none => ""

/-- Modelled from the spec: `Id::WithStat` (not among the source files)
"returns a new Identity with tag `statistic=s` added/overridden". -/
def Id.WithStat (i : Id) (s : String) : Id :=
  ⟨i.name, ("statistic", s) :: i.tags.filter (fun t => ¬ t.1 = "statistic")⟩

/-- A measurement: an identity and a sampled value (`Measurement` in the
source). -/
structure Measurement where
  id : Id
  value : ℚ
deriving DecidableEq, Repr

/-! ## MaxGauge (max_gauge.cc) -/

/-- `std::numeric_limits<double>::lowest()`: the most negative finite double,
`-(2^1024 - 2^971)`, exact as a rational. -/
def kMinValue : ℚ := -(2 ^ 1024 - 2 ^ 971)

/-- The state of a `MaxGauge`: its identity and the current atomic value. -/
structure MaxGauge where
  id : Id
  value : ℚ
deriving DecidableEq, Repr

/-- `MaxGauge::MaxGauge`: the value starts at the `kMinValue` sentinel. -/
def MaxGauge.init (id : Id) : MaxGauge := ⟨id, kMinValue⟩

/-- Modelled from the spec: `update_max` (atomicnumber.h is not among the
source files) "track[s the] running maximum via compare-and-set loop"; its
sequential effect is `value := max value v`. -/
def update_max (cur v : ℚ) : ℚ := max cur v

/-- `MaxGauge::Update`. -/
def MaxGauge.Update (g : MaxGauge) (v : ℚ) : MaxGauge :=
  { g with value := update_max g.value v }

/-- Apply a sequence of `Update` calls in order. -/
def MaxGauge.updates (g : MaxGauge) (vs : List ℚ) : MaxGauge :=
  vs.foldl MaxGauge.Update g

/-- `MaxGauge::Measure`: exchange the value with the `kMinValue` sentinel;
emit nothing if the old value was the sentinel, else one measurement tagged
`statistic=max`. Returns the emitted measurements and the post-state. -/
def MaxGauge.Measure (g : MaxGauge) : List Measurement × MaxGauge :=
  let value := g.value
  let g' : MaxGauge := { g with value := kMinValue }
  if value = kMinValue then ([], g')
  else ([⟨g.id.WithStat "max", value⟩], g')

theorem MaxGauge.updates_id (g : MaxGauge) (vs : List ℚ) :
    (g.updates vs).id = g.id := by
  induction vs generalizing g with
  | nil => rfl
  | cons v vs ih => simpa [MaxGauge.updates, MaxGauge.Update] using ih _

theorem MaxGauge.updates_value (g : MaxGauge) (vs : List ℚ) :
    (g.updates vs).value = vs.foldl max g.value := by
  induction vs generalizing g with
  | nil => rfl
  | cons v vs ih =>
      simpa [MaxGauge.updates, MaxGauge.Update, update_max] using ih _

theorem foldl_max_ge_init (a : ℚ) (vs : List ℚ) : a ≤ vs.foldl max a := by
  induction vs generalizing a with
  | nil => simp
  | cons v vs ih => exact le_trans (le_max_left a v) (ih _)

theorem foldl_max_mem (a : ℚ) (vs : List ℚ) :
    vs.foldl max a = a ∨ vs.foldl max a ∈ vs := by
  induction vs generalizing a with
  | nil => simp
  | cons v vs ih =>
      rcases ih (max a v) with h | h
      · rcases max_cases a v with ⟨he, _⟩ | ⟨he, _⟩
        · left
          rw [List.foldl_cons, h, he]
        · right
          rw [List.foldl_cons, h, he]
          exact List.mem_cons_self _ _
      · right
        rw [List.foldl_cons]
        exact List.mem_cons_of_mem _ h

theorem foldl_max_ge_mem (a : ℚ) (vs : List ℚ) (x : ℚ) (hx : x ∈ vs) :
    x ≤ vs.foldl max a := by
  induction vs generalizing a with
  | nil => cases hx
  | cons v vs ih =>
      rcases List.mem_cons.mp hx with rfl | h
      · exact le_trans (le_max_right a x) (foldl_max_ge_init _ _)
      · exact ih _ h

/-- C1: for a `MaxGauge`, after a nonempty sequence of `Update` calls with
representable (non-sentinel) values, `Measure` exchanges the state with the
most-negative-representable sentinel and returns exactly one measurement
tagged `statistic=max` whose value is the maximum of the updates; an idle
gauge (fresh, or immediately re-measured) returns the empty sequence. -/
theorem maxGauge_measure_c1 (id : Id) (v : ℚ) (vs : List ℚ)
    (hv : kMinValue < v) (hvs : ∀ x ∈ vs, kMinValue < x) :
    (∃ m : ℚ,
        ((MaxGauge.init id).updates (v :: vs)).Measure
          = ([⟨id.WithStat "max", m⟩], MaxGauge.init id)
        ∧ m ∈ v :: vs ∧ (∀ x ∈ v :: vs, x ≤ m)
        ∧ tagsAt (id.WithStat "max").tags "statistic" = "max")
    ∧ (MaxGauge.init id).Measure = ([], MaxGauge.init id)
    ∧ (((MaxGauge.init id).updates (v :: vs)).Measure.2).Measure
        = ([], MaxGauge.init id) := by
  have hid : ((MaxGauge.init id).updates (v :: vs)).id = id :=
    MaxGauge.updates_id _ _
  have hval : ((MaxGauge.init id).updates (v :: vs)).value
      = (v :: vs).foldl max kMinValue := MaxGauge.updates_value _ _
  have hgt : kMinValue < ((MaxGauge.init id).updates (v :: vs)).value := by
    rw [hval]
    calc kMinValue < v := hv
      _ ≤ max kMinValue v := le_max_right _ _
      _ ≤ vs.foldl max (max kMinValue v) := foldl_max_ge_init _ _
      _ = (v :: vs).foldl max kMinValue := rfl
  have hne : ((MaxGauge.init id).updates (v :: vs)).value ≠ kMinValue :=
    (ne_of_lt hgt).symm
  refine ⟨⟨((MaxGauge.init id).updates (v :: vs)).value, ?_, ?_, ?_, ?_⟩, ?_, ?_⟩
  · simp only [MaxGauge.Measure, if_neg hne]
    rw [hid]
    simp [MaxGauge.init]
  · rw [hval]
    rcases foldl_max_mem kMinValue (v :: vs) with h | h
    · exact absurd (hval.trans h) hne
    · exact h
  · intro x hx
    rw [hval]
    exact foldl_max_ge_mem _ _ _ hx
  · simp [Id.WithStat, tagsAt]
  · simp [MaxGauge.Measure, MaxGauge.init]
  · simp only [MaxGauge.Measure, if_neg hne]
    rw [hid]
    simp [MaxGauge.Measure, MaxGauge.init]

/-- Witness for C1 at the spec's Scenario B: MaxGauge `queueSize` receives
updates 5, 2, 9; `Measure` returns one measurement tagged max with value 9;
a second `Measure` returns nothing. -/
theorem maxGauge_measure_c1_witness :
    (∃ m : ℚ,
        ((MaxGauge.init ⟨"queueSize", []⟩).updates (5 :: [2, 9])).Measure
          = ([⟨(Id.mk "queueSize" []).WithStat "max", m⟩],
              MaxGauge.init ⟨"queueSize", []⟩)
        ∧ m ∈ (5 : ℚ) :: [2, 9] ∧ (∀ x ∈ (5 : ℚ) :: [2, 9], x ≤ m)
        ∧ tagsAt ((Id.mk "queueSize" []).WithStat "max").tags "statistic" = "max")
    ∧ (MaxGauge.init ⟨"queueSize", []⟩).Measure
        = ([], MaxGauge.init ⟨"queueSize", []⟩)
    ∧ (((MaxGauge.init ⟨"queueSize", []⟩).updates (5 :: [2, 9])).Measure.2).Measure
        = ([], MaxGauge.init ⟨"queueSize", []⟩) := by
  refine maxGauge_measure_c1 ⟨"queueSize", []⟩ 5 [2, 9] ?_ ?_
  · unfold kMinValue; norm_num
  · intro x hx
    fin_cases hx <;> (unfold kMinValue; norm_num)

/-! ## Batch encoder (`Publisher::build_str_table`, `op_from_tags`,
`add_tags`, `append_measurement`, `measurements_to_json`) -/

/-- A value pushed onto the JSON payload array. -/
inductive JVal where
  | int (n : ℤ)
  | str (s : String)
  | num (q : ℚ)
deriving DecidableEq, Repr

/-- The strings referenced by a batch, in the insertion order of
`build_str_table`: common-tag keys and values, the literal `"name"`, then
each measurement's identity name and tag keys/values. -/
def refStrings (commonTags : List (String × String)) (ms : List Measurement) :
    List String :=
  commonTags.flatMap (fun t => [t.1, t.2]) ++ ["name"]
    ++ ms.flatMap (fun m => m.id.name :: m.id.tags.flatMap (fun t => [t.1, t.2]))

/-- `sorted_strings` in `build_str_table`: the hash map's key set (the
distinct referenced strings) sorted ascending by `std::sort`. -/
def sortedStrings (commonTags : List (String × String)) (ms : List Measurement) :
    List String :=
  List.insertionSort (· ≤ ·) (refStrings commonTags ms).dedup

/-- The index-assignment loop of `build_str_table`:
`for i < n: strings[sorted_strings[i]] = i`. -/
def assignIndexes : ℕ → List String → (String → ℕ) → (String → ℕ)
  | _, [], acc => acc
  | i, s :: rest, acc => assignIndexes (i + 1) rest (Function.update acc s i)

/-- `Publisher::build_str_table`: the final string table (each referenced
string mapped to its assigned index) together with the payload prefix
`[count, str_0, ..., str_{count-1}]`. -/
def build_str_table (commonTags : List (String × String))
    (ms : List Measurement) : (String → ℕ) × List JVal :=
  let sorted := sortedStrings commonTags ms
  (assignIndexes 0 sorted (fun _ => 0),
    JVal.int sorted.length :: sorted.map JVal.str)

theorem mem_sortedStrings_iff (commonTags : List (String × String))
    (ms : List Measurement) (s : String) :
    s ∈ sortedStrings commonTags ms ↔ s ∈ refStrings commonTags ms :=
  ((List.perm_insertionSort _ _).mem_iff).trans List.mem_dedup

theorem assignIndexes_not_mem (l : List String) (i : ℕ) (acc : String → ℕ)
    (s : String) (hs : s ∉ l) : assignIndexes i l acc s = acc s := by
  induction l generalizing i acc with
  | nil => rfl
  | cons x xs ih =>
      have hsx : s ≠ x := fun h => hs (h ▸ List.mem_cons_self x xs)
      have hsxs : s ∉ xs := fun h => hs (List.mem_cons_of_mem _ h)
      rw [assignIndexes, ih _ _ hsxs, Function.update_noteq hsx]

theorem assignIndexes_indexOf (l : List String) (hl : l.Nodup) (i : ℕ)
    (acc : String → ℕ) (s : String) (hs : s ∈ l) :
    assignIndexes i l acc s = i + l.indexOf s := by
  induction l generalizing i acc with
  | nil => cases hs
  | cons x xs ih =>
      rw [assignIndexes]
      rcases List.mem_cons.mp hs with rfl | hmem
      · have hnx : s ∉ xs := (List.nodup_cons.mp hl).1
        rw [assignIndexes_not_mem _ _ _ _ hnx, Function.update_same,
          List.indexOf_cons_self]
        omega
      · have hne : s ≠ x := by
          rintro rfl
          exact (List.nodup_cons.mp hl).1 hmem
        rw [ih (List.nodup_cons.mp hl).2 _ _ hmem,
          List.indexOf_cons_ne _ hne.symm]
        omega

/-- C2: the string table of a batch contains exactly the distinct strings
referenced by the batch (common-tag keys/values, the literal "name", each
measurement's identity name and tag keys/values), sorted ascending, each
string's index equal to its sorted rank; the payload begins with the count
followed by the sorted strings in order. -/
theorem build_str_table_c2 (commonTags : List (String × String))
    (ms : List Measurement) :
    (∀ s, s ∈ sortedStrings commonTags ms ↔ s ∈ refStrings commonTags ms)
    ∧ (sortedStrings commonTags ms).Sorted (· ≤ ·)
    ∧ (sortedStrings commonTags ms).Nodup
    ∧ (∀ s ∈ sortedStrings commonTags ms,
        (build_str_table commonTags ms).1 s
          = (sortedStrings commonTags ms).indexOf s)
    ∧ (build_str_table commonTags ms).2
        = JVal.int (sortedStrings commonTags ms).length
            :: (sortedStrings commonTags ms).map JVal.str := by
  refine ⟨mem_sortedStrings_iff commonTags ms, ?_, ?_, ?_, rfl⟩
  · exact List.sorted_insertionSort _ _
  · exact (List.perm_insertionSort _ _).nodup_iff.mpr (List.nodup_dedup _)
  · intro s hs
    have hnodup : (sortedStrings commonTags ms).Nodup :=
      (List.perm_insertionSort _ _).nodup_iff.mpr (List.nodup_dedup _)
    simpa using assignIndexes_indexOf _ hnodup 0 (fun _ => 0) s hs

/-- The `Op` enum of the publisher. -/
inductive Op where
  | Unknown
  | Add
  | Max
deriving DecidableEq, Repr

/-- The numeric value of the `Op` enum (`Unknown = -1, Add = 0, Max = 10`). -/
def Op.code : Op → ℤ
  | .Unknown => -1
  | .Add => 0
  | .Max => 10

/-- `Publisher::op_from_tags`. -/
def op_from_tags (tags : List (String × String)) : Op :=
  let stat := tagsAt tags "statistic"
  if stat = "count" ∨ stat = "totalAmount" ∨ stat = "totalTime"
      ∨ stat = "totalOfSquares" ∨ stat = "percentile" then .Add
  else if stat = "max" ∨ stat = "gauge" ∨ stat = "activeTasks"
      ∨ stat = "duration" then .Max
  else .Unknown

/-- `Publisher::add_tags`: push each tag's key index and value index. -/
def add_tags (tbl : String → ℕ) (tags : List (String × String)) : List JVal :=
  tags.flatMap (fun t => [JVal.int (tbl t.1), JVal.int (tbl t.2)])

/-- `Publisher::append_measurement`: the values pushed for one measurement
(nothing when the statistic tag is unrecognized). -/
def append_measurement (commonTags : List (String × String))
    (tbl : String → ℕ) (m : Measurement) : List JVal :=
  let op := op_from_tags m.id.tags
  if op = Op.Unknown then []
  else
    JVal.int ((m.id.tags.length : ℤ) + 1 + (commonTags.length : ℤ))
      :: (add_tags tbl commonTags ++ add_tags tbl m.id.tags
          ++ [JVal.int (tbl "name"), JVal.int (tbl m.id.name),
              JVal.int op.code, JVal.num m.value])

/-- `Publisher::measurements_to_json`: the full batch payload (string table
prefix, then each measurement's record) and the number of measurements. -/
def measurements_to_json (commonTags : List (String × String))
    (ms : List Measurement) : List JVal × ℤ :=
  let tbl := (build_str_table commonTags ms).1
  ((build_str_table commonTags ms).2
      ++ ms.flatMap (append_measurement commonTags tbl), (ms.length : ℤ))

/-- C4: a measurement whose statistic tag is recognized as Add (count,
totalAmount, totalTime, totalOfSquares, percentile) or Max (max, gauge,
activeTasks, duration) is encoded as `[tagCount, common tag key/value
indices, identity tag key/value indices, nameKeyIdx, nameValueIdx, opCode,
value]` with `tagCount = |identity tags| + 1 + |common tags|` and opCode 0
for Add and 10 for Max. -/
theorem append_measurement_c4 (commonTags : List (String × String))
    (tbl : String → ℕ) (m : Measurement)
    (hrec : tagsAt m.id.tags "statistic"
        ∈ ["count", "totalAmount", "totalTime", "totalOfSquares", "percentile",
           "max", "gauge", "activeTasks", "duration"]) :
    append_measurement commonTags tbl m
      = JVal.int ((m.id.tags.length : ℤ) + 1 + (commonTags.length : ℤ))
          :: (add_tags tbl commonTags ++ add_tags tbl m.id.tags
              ++ [JVal.int (tbl "name"), JVal.int (tbl m.id.name),
                  JVal.int (if tagsAt m.id.tags "statistic"
                      ∈ ["count", "totalAmount", "totalTime", "totalOfSquares",
                         "percentile"] then 0 else 10),
                  JVal.num m.value]) := by
  simp only [List.mem_cons, List.not_mem_nil, or_false] at hrec
  unfold append_measurement op_from_tags
  rcases hrec with h | h | h | h | h | h | h | h | h <;>
    simp [h, Op.code]

/-- Witness for C4: a Max-statistic measurement with one common tag, at the
string table sending each string to its length, encodes to the concrete
record `[3, 6, 4, 9, 3, 4, 1, 10, 9]`. -/
theorem append_measurement_c4_witness :
    append_measurement [("nf.app", "main")] (fun s => s.length)
        ⟨⟨"q", [("statistic", "max")]⟩, 9⟩
      = [JVal.int 3, JVal.int 6, JVal.int 4, JVal.int 9, JVal.int 3,
          JVal.int 4, JVal.int 1, JVal.int 10, JVal.num 9] := by
  rw [append_measurement_c4 [("nf.app", "main")] (fun s => s.length)
      ⟨⟨"q", [("statistic", "max")]⟩, 9⟩ (by decide)]
  decide

/-- C3 counterexample: a measurement with no statistic tag contributes no
measurement record, but — contrary to the claim — its identity name "foo"
does appear in the batch's string table (`build_str_table` iterates every
measurement of the batch without filtering). -/
theorem strTable_unknown_c3_counterexample :
    append_measurement [] (build_str_table [] [⟨⟨"foo", []⟩, 1⟩]).1
        ⟨⟨"foo", []⟩, 1⟩ = []
    ∧ "foo" ∈ sortedStrings [] [⟨⟨"foo", []⟩, 1⟩] := by
  constructor
  · decide
  · rw [mem_sortedStrings_iff]
    decide

/-- C3 amended: a measurement whose statistic tag is absent or unrecognized
contributes no measurement record to the payload, and the rest of the batch
is still encoded (filtering, not an error); its strings, however, still
contribute to the batch's string table. -/
theorem strTable_unknown_c3_amended (commonTags : List (String × String))
    (pre post : List Measurement) (m : Measurement)
    (h : op_from_tags m.id.tags = Op.Unknown) :
    append_measurement commonTags
        (build_str_table commonTags (pre ++ m :: post)).1 m = []
    ∧ (measurements_to_json commonTags (pre ++ m :: post)).1
        = (build_str_table commonTags (pre ++ m :: post)).2
          ++ pre.flatMap (append_measurement commonTags
              (build_str_table commonTags (pre ++ m :: post)).1)
          ++ post.flatMap (append_measurement commonTags
              (build_str_table commonTags (pre ++ m :: post)).1)
    ∧ m.id.name ∈ sortedStrings commonTags (pre ++ m :: post)
    ∧ (∀ t ∈ m.id.tags, t.1 ∈ sortedStrings commonTags (pre ++ m :: post)
        ∧ t.2 ∈ sortedStrings commonTags (pre ++ m :: post)) := by
  have h1 : append_measurement commonTags
      (build_str_table commonTags (pre ++ m :: post)).1 m = [] := by
    simp [append_measurement, h]
  refine ⟨h1, ?_, ?_, ?_⟩
  · simp [measurements_to_json, h1]
  · rw [mem_sortedStrings_iff]
    unfold refStrings
    exact List.mem_append_right _ (List.mem_flatMap.mpr ⟨m, by simp, by simp⟩)
  · intro t ht
    refine ⟨?_, ?_⟩
    · rw [mem_sortedStrings_iff]
      unfold refStrings
      refine List.mem_append_right _ (List.mem_flatMap.mpr ⟨m, by simp, ?_⟩)
      simp only [List.mem_cons, List.mem_flatMap]
      exact Or.inr ⟨t, ht, by simp⟩
    · rw [mem_sortedStrings_iff]
      unfold refStrings
      refine List.mem_append_right _ (List.mem_flatMap.mpr ⟨m, by simp, ?_⟩)
      simp only [List.mem_cons, List.mem_flatMap]
      exact Or.inr ⟨t, ht, by simp⟩

/-- A statistic-less measurement used to exercise the filtering path. -/
def c3m : Measurement := ⟨⟨"foo", []⟩, 1⟩

/-- A recognized (count) measurement used next to `c3m`. -/
def c3ok : Measurement := ⟨⟨"ok", [("statistic", "count")]⟩, 2⟩

/-- Witness for the amended C3: a statistic-less measurement next to a
recognized one contributes no record while the recognized one is encoded. -/
theorem strTable_unknown_c3_amended_witness :
    append_measurement [] (build_str_table [] ([] ++ c3m :: [c3ok])).1 c3m = []
    ∧ (measurements_to_json [] ([] ++ c3m :: [c3ok])).1
        = (build_str_table [] ([] ++ c3m :: [c3ok])).2
          ++ ([] : List Measurement).flatMap
              (append_measurement [] (build_str_table [] ([] ++ c3m :: [c3ok])).1)
          ++ [c3ok].flatMap
              (append_measurement [] (build_str_table [] ([] ++ c3m :: [c3ok])).1)
    ∧ c3m.id.name ∈ sortedStrings [] ([] ++ c3m :: [c3ok])
    ∧ (∀ t ∈ c3m.id.tags, t.1 ∈ sortedStrings [] ([] ++ c3m :: [c3ok])
        ∧ t.2 ∈ sortedStrings [] ([] ++ c3m :: [c3ok])) :=
  strTable_unknown_c3_amended [] [] [c3ok] c3m (by decide)

/-! ## Batching loop of `Publisher::send_metrics` -/

/-- The batching loop of `send_metrics`, with explicit fuel: each iteration
takes `to_advance = min(batch_size, remaining)` measurements off the front;
`none` means the fuel ran out before the iterator reached the end (the C++
loop, which has no fuel bound, would still be running). -/
def chunksFuel (batchSize : ℕ) :
    ℕ → List Measurement → Option (List (List Measurement))
  | _, [] => some []
  | 0, _ :: _ => none
  | fuel + 1, x :: xs =>
      let to_advance := min batchSize (x :: xs).length
      (chunksFuel batchSize fuel ((x :: xs).drop to_advance)).map
        (fun rest => (x :: xs).take to_advance :: rest)

/-- The batch partition computed by `send_metrics`: the loop consumes at
least one measurement per iteration whenever the batch size is positive, so
`ms.length` fuel always suffices. -/
def send_batches (batchSize : ℕ) (ms : List Measurement) :
    Option (List (List Measurement)) :=
  chunksFuel batchSize ms.length ms

theorem chunksFuel_spec (B : ℕ) (hB : 0 < B) :
    ∀ (fuel : ℕ) (ms : List Measurement), ms.length ≤ fuel →
    ∃ cs, chunksFuel B fuel ms = some cs
      ∧ cs.flatten = ms
      ∧ cs.length = (ms.length + B - 1) / B
      ∧ (∀ c ∈ cs, c.length ≤ B ∧ c ≠ [])
      ∧ (∀ c ∈ cs.dropLast, c.length = B) := by
  intro fuel
  induction fuel with
  | zero =>
      intro ms hms
      have hnil : ms = [] := List.eq_nil_of_length_eq_zero (Nat.le_zero.mp hms)
      subst hnil
      refine ⟨[], rfl, rfl, ?_, by simp, by simp⟩
      simp [Nat.div_eq_of_lt (show B - 1 < B by omega)]
  | succ n ih =>
      intro ms hms
      match ms with
      | [] =>
          refine ⟨[], rfl, rfl, ?_, by simp, by simp⟩
          simp [Nat.div_eq_of_lt (show B - 1 < B by omega)]
      | x :: xs =>
          have hlen1 : 1 ≤ (x :: xs).length := by simp
          have ht1 : 1 ≤ min B (x :: xs).length := le_min hB hlen1
          have htle : min B (x :: xs).length ≤ B := min_le_left _ _
          have htlen : min B (x :: xs).length ≤ (x :: xs).length := min_le_right _ _
          have hdlen : (((x :: xs).drop (min B (x :: xs).length)).length) ≤ n := by
            rw [List.length_drop]
            omega
          obtain ⟨cs', hcs', hjoin, hclen, hbound, hlast⟩ := ih _ hdlen
          refine ⟨(x :: xs).take (min B (x :: xs).length) :: cs', ?_, ?_, ?_, ?_, ?_⟩
          · simp only [chunksFuel, hcs', Option.map_some']
          · simp [hjoin, List.take_append_drop]
          · have hc' : cs'.length
                = ((x :: xs).length - min B (x :: xs).length + B - 1) / B := by
              rw [hclen, List.length_drop]
            rcases le_or_lt B (x :: xs).length with hcase | hcase
            · have ht : min B (x :: xs).length = B := min_eq_left hcase
              rw [ht] at hc'
              have harith : (x :: xs).length + B - 1
                  = ((x :: xs).length - B + B - 1) + B := by omega
              rw [List.length_cons, hc', harith, Nat.add_div_right _ hB]
            · have ht : min B (x :: xs).length = (x :: xs).length :=
                min_eq_right (le_of_lt hcase)
              rw [ht, Nat.sub_self] at hc'
              have hz : cs'.length = 0 := by
                rw [hc']
                exact Nat.div_eq_of_lt (by omega)
              have hone : ((x :: xs).length + B - 1) / B = 1 :=
                Nat.div_eq_of_lt_le (by omega) (by omega)
              rw [List.length_cons, hz, hone]
          · intro c hc
            rcases List.mem_cons.mp hc with rfl | hc'
            · constructor
              · rw [List.length_take]
                omega
              · apply List.length_pos.mp
                rw [List.length_take]
                omega
            · exact hbound c hc'
          · intro c hc
            match cs', hcs', hjoin, hclen, hbound, hlast with
            | [], _, hjoin', _, _, _ => simp at hc
            | y :: ys, _, hjoin', _, hbound', hlast' =>
                rw [List.dropLast_cons₂] at hc
                rcases List.mem_cons.mp hc with rfl | hc'
                · have hdne : (x :: xs).drop (min B (x :: xs).length) ≠ [] := by
                    intro hd
                    rw [hd] at hjoin'
                    have : y = [] := (List.append_eq_nil.mp hjoin').1
                    exact (hbound' y (List.mem_cons_self _ _)).2 this
                  have hlt : min B (x :: xs).length < (x :: xs).length := by
                    rcases lt_or_eq_of_le htlen with h | h
                    · exact h
                    · exfalso
                      apply hdne
                      rw [h, List.drop_length]
                  have ht : min B (x :: xs).length = B := by
                    rcases min_cases B (x :: xs).length with ⟨h1, _⟩ | ⟨h1, h2⟩
                    · exact h1
                    · omega
                  rw [List.length_take]
                  omega
                · exact hlast' c hc'

/-- C5: with a positive batch size B, the send cycle partitions the snapshot
into consecutive batches of at most B measurements, exactly ceil(N/B) of
them, all nonempty and all of size B except possibly the last, and
concatenating the batches in order restores the snapshot. -/
theorem send_batches_c5 (B : ℕ) (ms : List Measurement) (hB : 0 < B) :
    ∃ cs, send_batches B ms = some cs
      ∧ cs.flatten = ms
      ∧ cs.length = (ms.length + B - 1) / B
      ∧ (∀ c ∈ cs, c.length ≤ B ∧ c ≠ [])
      ∧ (∀ c ∈ cs.dropLast, c.length = B) :=
  chunksFuel_spec B hB ms.length ms le_rfl

/-- Five distinct pending measurements, as in the spec's Scenario C. -/
def fiveMeasurements : List Measurement :=
  [⟨⟨"a", []⟩, 1⟩, ⟨⟨"b", []⟩, 2⟩, ⟨⟨"c", []⟩, 3⟩, ⟨⟨"d", []⟩, 4⟩, ⟨⟨"e", []⟩, 5⟩]

/-- Witness for C5: batch size 2 with 5 pending measurements. -/
theorem send_batches_c5_witness :
    ∃ cs, send_batches 2 fiveMeasurements = some cs
      ∧ cs.flatten = fiveMeasurements
      ∧ cs.length = (fiveMeasurements.length + 2 - 1) / 2
      ∧ (∀ c ∈ cs, c.length ≤ 2 ∧ c ≠ [])
      ∧ (∀ c ∈ cs.dropLast, c.length = 2) :=
  send_batches_c5 2 fiveMeasurements (by decide)

/-- C10: the batching loop of `send_metrics` terminates only when the batch
size is at least 1: with batch size 0 and a nonempty snapshot the iterator
never advances (`to_advance = min(0, remaining) = 0`), so no amount of fuel
completes the loop, while every positive batch size completes. -/
theorem send_batches_c10 (ms : List Measurement) (h : ms ≠ []) :
    (∀ fuel, chunksFuel 0 fuel ms = none)
    ∧ (∀ B, 0 < B → (send_batches B ms).isSome = true) := by
  constructor
  · match ms, h with
    | x :: xs, _ =>
        intro fuel
        induction fuel with
        | zero => rfl
        | succ n ihn =>
            simp only [chunksFuel, Nat.zero_min, List.drop_zero, ihn,
              Option.map_none']
  · intro B hB
    obtain ⟨cs, hcs, _⟩ := chunksFuel_spec B hB ms.length ms le_rfl
    rw [send_batches, hcs]
    rfl

/-- Witness for C10: a single pending measurement with batch size 0 never
finishes for any fuel; batch sizes 1 and up finish. -/
theorem send_batches_c10_witness :
    (∀ fuel, chunksFuel 0 fuel [⟨⟨"a", []⟩, 1⟩] = none)
    ∧ (∀ B, 0 < B → (send_batches B [⟨⟨"a", []⟩, 1⟩]).isSome = true) :=
  send_batches_c10 [⟨⟨"a", []⟩, 1⟩] (by decide)

/-! ## Outcome accounting of `send_metrics`
(`update_sent` / `update_http_err`) -/

/-- The identity of the registry's own sent counter:
`GetCounter("spectator.measurementsSent")`, i.e. `CreateId` with no tags. -/
def sentId : Id := ⟨"spectator.measurementsSent", []⟩

/-- The identity of the registry's own send-error counter built by
`update_http_err`: tagged `error=httpError` and
`statusCode=std::to_string(status_code)`. -/
def errId (statusCode : ℤ) : Id :=
  ⟨"spectator.measurementsErr",
    [("error", "httpError"), ("statusCode", toString statusCode)]⟩

/-- The registry's counter state (each counter identity's accumulated
value); `Counter::Add` adds the amount to the addressed counter. -/
def counterAdd (st : Id → ℚ) (id : Id) (amount : ℤ) : Id → ℚ :=
  Function.update st id (st id + amount)

/-- `Publisher::update_sent`. -/
def update_sent (st : Id → ℚ) (numSent : ℤ) : Id → ℚ :=
  counterAdd st sentId numSent

/-- `Publisher::update_http_err`. -/
def update_http_err (st : Id → ℚ) (statusCode numNotSent : ℤ) : Id → ℚ :=
  counterAdd st (errId statusCode) numNotSent

/-- One iteration of the per-batch result loop of `send_metrics`, given one
batch's (HTTP status, measurement count). -/
def process_result (st : Id → ℚ) (r : ℤ × ℤ) : Id → ℚ :=
  if r.1 ≠ 200 then update_http_err st r.1 r.2 else update_sent st r.2

/-- The per-batch result loop of `send_metrics` over one cycle's batches. -/
def process_results (st : Id → ℚ) (results : List (ℤ × ℤ)) : Id → ℚ :=
  results.foldl process_result st

/-- The total measurement count of the 200-status batches of a cycle. -/
def sentSum (results : List (ℤ × ℤ)) : ℚ :=
  results.foldr (fun r acc => if r.1 = 200 then (r.2 : ℚ) + acc else acc) 0

/-- The total measurement count of the batches accounted to the error
counter of the given status code. -/
def errSum (code : ℤ) (results : List (ℤ × ℤ)) : ℚ :=
  results.foldr
    (fun r acc =>
      if r.1 ≠ 200 ∧ errId r.1 = errId code then (r.2 : ℚ) + acc else acc) 0

theorem process_result_sent (st : Id → ℚ) (n : ℤ) :
    process_result st (200, n) = Function.update st sentId (st sentId + n) := by
  simp [process_result, update_sent, counterAdd]

theorem process_result_err (st : Id → ℚ) (c n : ℤ) (hc : c ≠ 200) :
    process_result st (c, n)
      = Function.update st (errId c) (st (errId c) + n) := by
  simp [process_result, hc, update_http_err, counterAdd]

theorem sentId_ne_errId (c : ℤ) : sentId ≠ errId c := by
  intro h
  have hname : sentId.name = (errId c).name := congrArg Id.name h
  have hlit : ("spectator.measurementsSent" : String)
      = "spectator.measurementsErr" := hname
  exact absurd hlit (by decide)

/-- C6: over one send cycle's per-batch HTTP results, each batch is
accounted independently: every status-200 batch adds its measurement count
to `spectator.measurementsSent`, and every other batch adds its count to
`spectator.measurementsErr` tagged `error=httpError`,
`statusCode=<the status code>`. -/
theorem process_results_c6 (st : Id → ℚ) (results : List (ℤ × ℤ)) :
    process_results st results sentId = st sentId + sentSum results
    ∧ ∀ code : ℤ, code ≠ 200 →
        process_results st results (errId code)
          = st (errId code) + errSum code results := by
  induction results generalizing st with
  | nil =>
      refine ⟨by simp [process_results, sentSum], fun code _ => ?_⟩
      simp [process_results, errSum]
  | cons r rs ih =>
      obtain ⟨c, n⟩ := r
      have step : process_results st ((c, n) :: rs)
          = process_results (process_result st (c, n)) rs := rfl
      constructor
      · rw [step, (ih _).1]
        by_cases hc : c = 200
        · subst hc
          rw [process_result_sent, Function.update_same]
          simp [sentSum]
          ring
        · rw [process_result_err _ _ _ hc,
            Function.update_noteq (sentId_ne_errId c)]
          simp [sentSum, hc]
      · intro code hcode
        rw [step, (ih _).2 code hcode]
        by_cases hc : c = 200
        · subst hc
          rw [process_result_sent,
            Function.update_noteq (Ne.symm (sentId_ne_errId code))]
          simp [errSum]
        · rw [process_result_err _ _ _ hc]
          by_cases he : errId c = errId code
          · rw [he, Function.update_same]
            simp [errSum, hc, he]
            ring
          · rw [Function.update_noteq (Ne.symm he)]
            simp [errSum, hc, he]

/-- Witness for C6 at the spec's Scenario C: batches of sizes 2, 2, 1 with
statuses 200, 503, 200 add 3 to the sent counter and 2 to the 503-tagged
error counter, starting from zeroed counters. -/
theorem process_results_c6_witness :
    process_results (fun _ => (0 : ℚ)) [(200, 2), (503, 2), (200, 1)] sentId = 3
    ∧ process_results (fun _ => (0 : ℚ)) [(200, 2), (503, 2), (200, 1)]
        (errId 503) = 2 := by
  have h := process_results_c6 (fun _ => (0 : ℚ)) [(200, 2), (503, 2), (200, 1)]
  constructor
  · rw [h.1]
    norm_num [sentSum]
  · rw [h.2 503 (by decide)]
    norm_num [errSum]

/-! ## Publisher lifecycle (`Start` / `Stop`) -/

/-- The observable lifecycle state: the function-local `http_initialized`
static, the `started_` and `should_stop_` flags, and counts of the
externally visible effects (GlobalInit, GlobalShutdown, thread spawns,
joins, condition-variable notifies, warning logs). -/
structure PubState where
  http_initialized : Bool
  started : Bool
  should_stop : Bool
  globalInitCount : ℕ
  globalShutdownCount : ℕ
  workersSpawned : ℕ
  joinCount : ℕ
  notifyCount : ℕ
  warnCount : ℕ
deriving DecidableEq, Repr

/-- The state before any call: statics false, no effects yet. -/
def PubState.init : PubState := ⟨false, false, false, 0, 0, 0, 0, 0, 0⟩

/-- `Publisher::Start` as a transition on the observable state, given
whether the configured endpoint uri is empty. Faithful to the source order:
the one-time `HttpClient::GlobalInit` runs before the uri check and the
`started_.exchange(true)` check. -/
def publisherStart (uriEmpty : Bool) (s : PubState) : PubState :=
  let s1 := if s.http_initialized then s
    else { s with http_initialized := true,
                  globalInitCount := s.globalInitCount + 1 }
  if uriEmpty then { s1 with warnCount := s1.warnCount + 1 }
  else if s1.started then { s1 with started := true,
                                    warnCount := s1.warnCount + 1 }
  else { s1 with started := true,
                 workersSpawned := s1.workersSpawned + 1 }

/-- `Publisher::Stop` as a transition on the observable state: return
immediately when never started; otherwise set the stop flag, notify the
condition variable, join the worker thread, then run
`HttpClient::GlobalShutdown`. `started_` is never cleared. -/
def publisherStop (s : PubState) : PubState :=
  if s.started = false then s
  else { s with should_stop := true,
                notifyCount := s.notifyCount + 1,
                joinCount := s.joinCount + 1,
                globalShutdownCount := s.globalShutdownCount + 1 }

/-- C7 counterexample: calling `Start` with an empty endpoint on a fresh
process performs `HttpClient::GlobalInit` (a process-wide side effect) even
though no worker is spawned and no Publisher is started — contradicting
both "no other side effect occurs" and "initialization at the first
Publisher actually started". -/
theorem publisher_start_c7_counterexample :
    (publisherStart true PubState.init).globalInitCount = 1
    ∧ (publisherStart true PubState.init).workersSpawned = 0
    ∧ (publisherStart true PubState.init).started = false := by decide

/-- C7 amended: `Start` with an empty endpoint warns and spawns no worker,
but the one-time `GlobalInit` still runs at the first `Start` call of the
process, whether or not a Publisher is started by it; `Start` on an
already-started publisher warns and spawns nothing; a fresh `Start` with an
endpoint spawns the worker without warning; `GlobalInit` never runs twice;
two `Start` calls produce exactly one worker and one warning. -/
theorem publisher_start_c7_amended (s : PubState) (uriEmpty : Bool) :
    ((publisherStart uriEmpty s).globalInitCount
        = s.globalInitCount + (if s.http_initialized then 0 else 1))
    ∧ (publisherStart uriEmpty s).http_initialized = true
    ∧ (∀ u2 : Bool, (publisherStart u2 (publisherStart uriEmpty s)).globalInitCount
        = (publisherStart uriEmpty s).globalInitCount)
    ∧ (uriEmpty = true →
        (publisherStart uriEmpty s).workersSpawned = s.workersSpawned
        ∧ (publisherStart uriEmpty s).started = s.started
        ∧ (publisherStart uriEmpty s).warnCount = s.warnCount + 1)
    ∧ (uriEmpty = false → s.started = true →
        (publisherStart uriEmpty s).workersSpawned = s.workersSpawned
        ∧ (publisherStart uriEmpty s).warnCount = s.warnCount + 1)
    ∧ (uriEmpty = false → s.started = false →
        (publisherStart uriEmpty s).workersSpawned = s.workersSpawned + 1
        ∧ (publisherStart uriEmpty s).started = true
        ∧ (publisherStart uriEmpty s).warnCount = s.warnCount)
    ∧ ((publisherStart false (publisherStart false PubState.init)).workersSpawned = 1
        ∧ (publisherStart false (publisherStart false PubState.init)).warnCount = 1
        ∧ (publisherStart false (publisherStart false PubState.init)).globalInitCount = 1) := by
  obtain ⟨hi, st, ss, gi, gs, ws, jc, nc, wc⟩ := s
  cases hi <;> cases st <;> cases uriEmpty <;>
    refine ⟨by simp [publisherStart], by simp [publisherStart],
      ?_, ?_, ?_, ?_, by decide⟩ <;>
    (intro u2; cases u2 <;> simp [publisherStart])

/-- Witness for the amended C7, exercising all three entry conditions from
a fresh process: an empty-endpoint start, a fresh real start, and a
repeated start. -/
theorem publisher_start_c7_amended_witness :
    ((publisherStart true PubState.init).workersSpawned
        = PubState.init.workersSpawned
      ∧ (publisherStart true PubState.init).started = PubState.init.started
      ∧ (publisherStart true PubState.init).warnCount
          = PubState.init.warnCount + 1)
    ∧ ((publisherStart false PubState.init).workersSpawned
          = PubState.init.workersSpawned + 1
        ∧ (publisherStart false PubState.init).started = true
        ∧ (publisherStart false PubState.init).warnCount
            = PubState.init.warnCount)
    ∧ ((publisherStart false (publisherStart false PubState.init)).workersSpawned
          = (publisherStart false PubState.init).workersSpawned
        ∧ (publisherStart false (publisherStart false PubState.init)).warnCount
            = (publisherStart false PubState.init).warnCount + 1) :=
  ⟨(publisher_start_c7_amended PubState.init true).2.2.2.1 rfl,
   (publisher_start_c7_amended PubState.init false).2.2.2.2.2.1 rfl rfl,
   (publisher_start_c7_amended (publisherStart false PubState.init) false).2.2.2.2.1
     rfl (by decide)⟩

/-- C8 counterexample: after a Start/Stop sequence a second `Stop` is not a
no-op: `started_` was never cleared, so it joins the already-joined worker
again and runs the process-wide transport shutdown a second time. -/
theorem publisher_stop_c8_counterexample :
    (publisherStop (publisherStop (publisherStart false PubState.init))
        ≠ publisherStop (publisherStart false PubState.init))
    ∧ (publisherStop (publisherStop (publisherStart false PubState.init))).globalShutdownCount = 2
    ∧ (publisherStop (publisherStop (publisherStart false PubState.init))).joinCount = 2 := by
  decide

/-- C8 amended: `Stop` on a never-started publisher returns immediately
with no side effects; on a started publisher it sets the stop flag,
notifies the interruptible wait, joins the worker thread, then performs the
process-wide transport shutdown. It is not idempotent: since `started_` is
never cleared, a second `Stop` repeats the join and the shutdown. -/
theorem publisher_stop_c8_amended (s : PubState) :
    (publisherStop s).started = s.started
    ∧ (s.started = false → publisherStop s = s)
    ∧ (s.started = true →
        (publisherStop s).should_stop = true
        ∧ (publisherStop s).notifyCount = s.notifyCount + 1
        ∧ (publisherStop s).joinCount = s.joinCount + 1
        ∧ (publisherStop s).globalShutdownCount = s.globalShutdownCount + 1)
    ∧ (s.started = true →
        (publisherStop (publisherStop s)).globalShutdownCount
          = s.globalShutdownCount + 2) := by
  obtain ⟨hi, st, ss, gi, gs, ws, jc, nc, wc⟩ := s
  cases st
  · refine ⟨by simp [publisherStop], fun _ => by simp [publisherStop],
      fun h => absurd h (by simp), fun h => absurd h (by simp)⟩
  · refine ⟨by simp [publisherStop], fun h => absurd h (by simp),
      fun _ => ⟨by simp [publisherStop], by simp [publisherStop],
        by simp [publisherStop], by simp [publisherStop]⟩,
      fun _ => ?_⟩
    simp [publisherStop]

/-- The state of a freshly started publisher (nonempty endpoint). -/
def startedPub : PubState := publisherStart false PubState.init

/-- Witness for the amended C8: stop-before-start is a no-op; a first Stop
of a started publisher performs the four stop effects; a second Stop
shuts the transport down again. -/
theorem publisher_stop_c8_amended_witness :
    publisherStop PubState.init = PubState.init
    ∧ ((publisherStop startedPub).should_stop = true
        ∧ (publisherStop startedPub).notifyCount = startedPub.notifyCount + 1
        ∧ (publisherStop startedPub).joinCount = startedPub.joinCount + 1
        ∧ (publisherStop startedPub).globalShutdownCount
            = startedPub.globalShutdownCount + 1)
    ∧ (publisherStop (publisherStop startedPub)).globalShutdownCount
        = startedPub.globalShutdownCount + 2 :=
  ⟨(publisher_stop_c8_amended PubState.init).2.1 rfl,
   (publisher_stop_c8_amended startedPub).2.2.1 (by decide),
   (publisher_stop_c8_amended startedPub).2.2.2 (by decide)⟩

/-! ## HTTP client timeouts in `send_metrics` -/

/-- C++ semantics of `auto t = a || b` at integer operands: logical-or
yields a `bool` (true iff either operand is nonzero), which converts to 1
or 0 when later used as an integer. -/
def cppOrToInt (a b : ℤ) : ℤ := if a ≠ 0 ∨ b ≠ 0 then 1 else 0

/-- The read timeout `send_metrics` passes to the `HttpClient`:
`auto read_timeout = cfg.read_timeout || 2`. -/
def effective_read_timeout (cfgReadTimeout : ℤ) : ℤ :=
  cppOrToInt cfgReadTimeout 2

/-- The connect timeout `send_metrics` passes to the `HttpClient`:
`auto connect_timeout = cfg.connect_timeout || 1`. -/
def effective_connect_timeout (cfgConnectTimeout : ℤ) : ℤ :=
  cppOrToInt cfgConnectTimeout 1

/-- C9 (code bug): the timeouts are computed with C++ logical `||`, not a
default-if-unset, so every configuration yields a 1-second read timeout and
a 1-second connect timeout — a configured read timeout of 5 does not yield
5, and an unset (0) read timeout does not yield the documented default 2. -/
theorem timeouts_c9_bug :
    effective_read_timeout 5 = 1
    ∧ effective_read_timeout 0 = 1
    ∧ (∀ r : ℤ, effective_read_timeout r = 1)
    ∧ (∀ c : ℤ, effective_connect_timeout c = 1) := by
  refine ⟨by decide, by decide, fun r => ?_, fun c => ?_⟩
  · unfold effective_read_timeout cppOrToInt
    rw [if_pos (Or.inr (by norm_num))]
  · unfold effective_connect_timeout cppOrToInt
    rw [if_pos (Or.inr (by norm_num))]

end Spectator
